import Mathlib

/-!
Verification of the G13 trading-bot orchestration engine.

This file gives a shallow embedding, over exact rationals, of the parts of
the Python source that the checked properties speak about:

* `backend/strategy/ia_adjust.py`  — the Strategist auto-adjust component
  (exact-value mode, rules fallback mode, manual adjustment, direction lock,
  rate limiting, live-position SL/TP rewrite);
* `backend/core/trading_loop.py`   — per-position SL management
  (trailing / break-even / winner-never-loser) and trade-volume snapping;
* `backend/actions/stats/calculate.py` — statistics derivation;
* `backend/actions/sync/sync_closed.py` — ticket-based closed-trade sync;
* `backend/agents/base.py`         — the per-agent `can_trade` gate.

Numbers are modelled as `ℚ`.  Python's `round(x, n)` rounds the decimal
value to `n` digits with ties going to the even last digit; it is modelled
by `pyRound` (round-half-to-even on exact rationals).  Python's `int(x)`
truncates toward zero and is modelled by `truncQ`.  Timestamps are rational
epoch seconds; ISO-format parsing in the source is assumed to succeed (the
parse-failure `continue` branches are unreachable for entries the program
itself wrote).
-/

namespace G13

set_option maxRecDepth 4000

/-- Round a rational to the nearest integer, ties to the even integer.
This is the rounding Python's builtin `round` applies to the decimal value
of its argument. -/
def roundHalfEven (q : ℚ) : ℤ :=
  if q - ⌊q⌋ < 1/2 then ⌊q⌋
  else if 1/2 < q - ⌊q⌋ then ⌊q⌋ + 1
  else if ⌊q⌋ % 2 = 0 then ⌊q⌋ else ⌊q⌋ + 1

/-- Model of Python `round(q, n)` for `n ≥ 1` digits, on exact rationals. -/
def pyRound (q : ℚ) (n : ℕ) : ℚ :=
  (roundHalfEven (q * 10 ^ n) : ℚ) / 10 ^ n

/-- Model of Python `int(q)`: truncation toward zero. -/
def truncQ (q : ℚ) : ℚ :=
  if 0 ≤ q then (⌊q⌋ : ℚ) else (⌈q⌉ : ℚ)

/-- `max(lo, min(hi, v))`, the clamp pattern used throughout `ia_adjust.py`. -/
def clampQ (lo hi v : ℚ) : ℚ := max lo (min hi v)

/-! ## Data model of the auto-adjust component (`ia_adjust.py`) -/

/-- The `tpsl_config` sub-record of an agent config (the two fields the
auto-adjust component mutates). -/
structure Tpsl where
  tp : ℚ
  sl : ℚ
deriving DecidableEq

/-- The slice of `config/agents.json` per agent that `ia_adjust.py` touches. -/
structure Config where
  tol : ℚ       -- fibo_tolerance_pct
  cooldown : ℚ  -- cooldown_seconds
  posSize : ℚ   -- position_size_pct
  tpsl : Tpsl
deriving DecidableEq

/-- An adjustment-log entry (`adjustments_log.json`).  `type` and `reason`
are irrelevant to every checked property and are omitted. -/
structure Entry where
  agent : String
  field : String
  old : ℚ
  new : ℚ
  ts : ℚ
deriving DecidableEq

/-- The adjustable parameters known to `PARAM_MAP` in
`IAdjust.apply_exact_values`. -/
inductive Param
  | tol | cooldown | posSize | tp | sl
deriving DecidableEq

/-- Lower bound per parameter (`PARAM_MAP` min). -/
def paramMin : Param → ℚ
  | .tol => 1/2
  | .cooldown => 60
  | .posSize => 5/1000
  | .tp => 1/10
  | .sl => 1/5

/-- Upper bound per parameter (`PARAM_MAP` max). -/
def paramMax : Param → ℚ
  | .tol => 5
  | .cooldown => 600
  | .posSize => 5/100
  | .tp => 1
  | .sl => 1

/-- Rounding precision per parameter (`PARAM_MAP` round); 0 means Python
`int()` truncation. -/
def paramDigits : Param → ℕ
  | .tol => 2
  | .cooldown => 0
  | .posSize => 4
  | .tp => 3
  | .sl => 3

/-- Bare parameter name, as it appears as a key of the `changes` dict. -/
def paramName : Param → String
  | .tol => "fibo_tolerance_pct"
  | .cooldown => "cooldown_seconds"
  | .posSize => "position_size_pct"
  | .tp => "tp_pct"
  | .sl => "sl_pct"

/-- Field name recorded in an adjustment entry: tpsl-path parameters get the
`tpsl_config.` prefixed form. -/
def entryField : Param → String
  | .tp => "tpsl_config.tp_pct"
  | .sl => "tpsl_config.sl_pct"
  | p => paramName p

/-- Read a parameter from the config. -/
def getParam (cfg : Config) : Param → ℚ
  | .tol => cfg.tol
  | .cooldown => cfg.cooldown
  | .posSize => cfg.posSize
  | .tp => cfg.tpsl.tp
  | .sl => cfg.tpsl.sl

/-- Write a parameter into the config. -/
def setParam (cfg : Config) : Param → ℚ → Config
  | .tol, v => { cfg with tol := v }
  | .cooldown, v => { cfg with cooldown := v }
  | .posSize, v => { cfg with posSize := v }
  | .tp, v => { cfg with tpsl := { cfg.tpsl with tp := v } }
  | .sl, v => { cfg with tpsl := { cfg.tpsl with sl := v } }

/-- First value bound to `p` in an association list (Python dict lookup;
the dicts the source builds have unique keys). -/
def findParam (p : Param) : List (Param × ℚ) → Option ℚ
  | [] => none
  | (q, v) :: rest => if q = p then some v else findParam p rest

/-- Parameter rounding as `apply_exact_values` performs it:
`round(v, digits)` for positive precision, `int(v)` for precision 0. -/
def roundParam (p : Param) (v : ℚ) : ℚ :=
  if paramDigits p = 0 then truncQ v else pyRound v (paramDigits p)

/-- Clamp a value to the parameter's `PARAM_MAP` bounds. -/
def clampParam (p : Param) (v : ℚ) : ℚ :=
  clampQ (paramMin p) (paramMax p) v

/-- The initial per-field step of `apply_exact_values`: clamp to bounds,
then round at the field's precision. -/
def clampRound (p : Param) (v : ℚ) : ℚ :=
  roundParam p (clampParam p v)

/-- Guard-rail B of `apply_exact_values`: if the current value is positive
and the proposed change exceeds `MAX_CHANGE_PCT = 50` percent of it, pull
the proposal back to current ± 50 %, round at the field's precision, and
re-clamp to bounds. -/
def amplitudeGuard (p : Param) (current c : ℚ) : ℚ :=
  if 0 < current ∧ current * (50/100) < |c - current| then
    clampParam p
      (if current < c then roundParam p (current + current * (50/100))
       else roundParam p (current - current * (50/100)))
  else c

/-- The scanning loop of `IAdjust._is_direction_locked`: walk the recent
entries; entries for another agent or another field are skipped; the first
matching entry decides — too old (`ts < thresh`) means no lock, otherwise
the lock fires exactly when its direction differs from `up`. -/
def scanDirection (agent pname : String) (thresh : ℚ) (up : Bool) :
    List Entry → Bool
  | [] => false
  | e :: rest =>
    if e.agent ≠ agent then scanDirection agent pname thresh up rest
    else if e.field ≠ pname ∧ e.field ≠ "tpsl_config." ++ pname then
      scanDirection agent pname thresh up rest
    else if e.ts < thresh then false
    else decide (e.old < e.new) != up

/-- `IAdjust._is_direction_locked` (guard-rail C): a change of direction
`up = (new > current)` is locked when the most recent log entry for the
same `(agent, field)` within `DIRECTION_LOCK_SECONDS = 14400` seconds,
among the 50 most recent entries, moved the other way. -/
def isDirectionLocked (log : List Entry) (now : ℚ) (agent pname : String)
    (current newV : ℚ) : Bool :=
  if current = 0 then false
  else scanDirection agent pname (now - 14400) (decide (current < newV)) (log.take 50)

/-- `IAdjust._can_adjust`: rate limiting.  Passes iff (a) the in-memory
last-adjustment timestamp for the agent is absent or at least
`MIN_ADJUSTMENT_INTERVAL = 900` seconds old, and (b) fewer than
`MAX_ADJUSTMENTS_PER_HOUR = 4` of the agent's entries among the 50 most
recent log entries fall inside the rolling hour. -/
def canAdjust (lastAdj : Option ℚ) (log : List Entry) (agent : String)
    (now : ℚ) : Bool :=
  (match lastAdj with
   | none => true
   | some t => decide (900 ≤ now - t)) &&
  decide ((log.take 50).countP
    (fun e => e.agent == agent && decide (now - 3600 < e.ts)) < 4)

/-- Per-field body of the `apply_exact_values` loop: clamp and round the
requested value, skip when unchanged, apply the amplitude guard, drop when
direction-locked, skip when unchanged after the guards; otherwise yield the
value to write. -/
def processParam (agent : String) (log : List Entry) (now current : ℚ)
    (p : Param) (v : ℚ) : Option ℚ :=
  let c1 := clampRound p v
  if c1 = current then none
  else
    let c2 := amplitudeGuard p current c1
    if isDirectionLocked log now agent (paramName p) current c2 then none
    else if c2 = current then none
    else some c2

/-- Adjustment entry produced for an applied field (the `agent_id` key is
stamped later, inside `_log_adjustments`). -/
def mkEntry (p : Param) (old new now : ℚ) : Entry :=
  { agent := "", field := entryField p, old := old, new := new, ts := now }

/-- The main loop of `apply_exact_values` over the requested changes:
thread the config through, collecting the adjustment entries in request
order. -/
def applyChanges (agent : String) (log : List Entry) (now : ℚ) :
    Config → List (Param × ℚ) → Config × List Entry
  | cfg, [] => (cfg, [])
  | cfg, (p, v) :: rest =>
    match processParam agent log now (getParam cfg p) p v with
    | none => applyChanges agent log now cfg rest
    | some c =>
      let r := applyChanges agent log now (setParam cfg p c) rest
      (r.1, mkEntry p (getParam cfg p) c now :: r.2)

/-- Guard-rail A of `apply_exact_values`: with `final_tp`/`final_sl` the
requested-or-current values, when `final_sl > 1.5 × final_tp` the requested
`sl_pct` (when present) is replaced by `round(1.5 × final_tp, 3)`; nothing
else changes, and nothing happens to `sl_pct` when it was not requested. -/
def ratioFixup (cfg : Config) (changes : List (Param × ℚ)) :
    List (Param × ℚ) :=
  let finalTp := (findParam .tp changes).getD cfg.tpsl.tp
  let finalSl := (findParam .sl changes).getD cfg.tpsl.sl
  if finalTp * (3/2) < finalSl then
    changes.map (fun pv =>
      if pv.1 = Param.sl then (Param.sl, pyRound (finalTp * (3/2)) 3) else pv)
  else changes

/-- `IAdjust._log_adjustments`: stamp the agent id on each entry, insert
them one by one at the head of the log (which reverses the batch at the
head), and trim the log to 100 entries. -/
def logAdjustments (agent : String) (log : List Entry)
    (entries : List Entry) : List Entry :=
  ((entries.map (fun e => { e with agent := agent })).foldl
    (fun acc e => e :: acc) log).take 100

/-- The mutable state the auto-adjust component acts on: the agent's
config, the adjustment log, and the in-memory `_last_adjustment_time`
entry for the agent. -/
structure AdjState where
  cfg : Config
  log : List Entry
  lastAdj : Option ℚ
deriving DecidableEq

/-- `IAdjust.apply_exact_values` (exact-value mode).  Rate limiting first;
then guard-rail A on the requested dict, the per-field loop, and — only
when at least one adjustment survived — the config save, the log append
and the `_last_adjustment_time` update. -/
def applyExactValues (st : AdjState) (agent : String)
    (changes : List (Param × ℚ)) (now : ℚ) : AdjState :=
  if canAdjust st.lastAdj st.log agent now then
    let r := applyChanges agent st.log now st.cfg (ratioFixup st.cfg changes)
    if r.2.isEmpty then st
    else { cfg := r.1, log := logAdjustments agent st.log r.2, lastAdj := some now }
  else st

/-- Suggestion types understood by `IAdjust._apply_suggestion` (rules
fallback mode). -/
inductive Suggestion
  | reduceTolerance | increaseTolerance | increaseCooldown | reduceCooldown
  | adjustTpsl | riskManagement | increaseRisk | unknown
deriving DecidableEq

/-- `IAdjust._apply_suggestion` and the seven step helpers it dispatches
to: each applies one fixed-step clamped change and reports the entry, or
does nothing when the step is a no-op. -/
def applySuggestion (cfg : Config) (now : ℚ) :
    Suggestion → Option (Config × Entry)
  | .reduceTolerance =>
    let v := pyRound (max (1/2) (cfg.tol - 1/2)) 2
    if v = cfg.tol then none
    else some ({ cfg with tol := v }, ⟨"", "fibo_tolerance_pct", cfg.tol, v, now⟩)
  | .increaseTolerance =>
    let v := pyRound (min 5 (cfg.tol + 1/2)) 2
    if v = cfg.tol then none
    else some ({ cfg with tol := v }, ⟨"", "fibo_tolerance_pct", cfg.tol, v, now⟩)
  | .increaseCooldown =>
    let v := min 600 (cfg.cooldown + 30)
    if v = cfg.cooldown then none
    else some ({ cfg with cooldown := v }, ⟨"", "cooldown_seconds", cfg.cooldown, v, now⟩)
  | .reduceCooldown =>
    let v := max 60 (cfg.cooldown - 30)
    if v = cfg.cooldown then none
    else some ({ cfg with cooldown := v }, ⟨"", "cooldown_seconds", cfg.cooldown, v, now⟩)
  | .adjustTpsl =>
    let v := pyRound (min 1 (cfg.tpsl.tp + 1/20)) 3
    if v = cfg.tpsl.tp then none
    else some ({ cfg with tpsl := { cfg.tpsl with tp := v } },
      ⟨"", "tpsl_config.tp_pct", cfg.tpsl.tp, v, now⟩)
  | .riskManagement =>
    let v := pyRound (max (1/5) (cfg.tpsl.sl - 1/20)) 3
    if v = cfg.tpsl.sl then none
    else some ({ cfg with tpsl := { cfg.tpsl with sl := v } },
      ⟨"", "tpsl_config.sl_pct", cfg.tpsl.sl, v, now⟩)
  | .increaseRisk =>
    let v := pyRound (min (5/100) (cfg.posSize + 5/1000)) 4
    if v = cfg.posSize then none
    else some ({ cfg with posSize := v }, ⟨"", "position_size_pct", cfg.posSize, v, now⟩)
  | .unknown => none

/-- The suggestion loop of `IAdjust.auto_adjust`. -/
def autoAdjustLoop (now : ℚ) : Config → List Suggestion → Config × List Entry
  | cfg, [] => (cfg, [])
  | cfg, s :: rest =>
    match applySuggestion cfg now s with
    | none => autoAdjustLoop now cfg rest
    | some r =>
      let r2 := autoAdjustLoop now r.1 rest
      (r2.1, r.2 :: r2.2)

/-- `IAdjust.auto_adjust` (rules fallback mode): rate limiting, then the
mechanical fixed-step suggestions; commit only when something changed.
There is no ratio guard, no amplitude guard and no direction lock on this
path. -/
def autoAdjust (st : AdjState) (agent : String) (suggs : List Suggestion)
    (now : ℚ) : AdjState :=
  if canAdjust st.lastAdj st.log agent now then
    let r := autoAdjustLoop now st.cfg suggs
    if r.2.isEmpty then st
    else { cfg := r.1, log := logAdjustments agent st.log r.2, lastAdj := some now }
  else st

/-- `IAdjust.manual_adjust` for the numeric top-level fields: writes the
value with no bounds check, no guard-rails and no rate limiting, logs the
entry, and does not touch `_last_adjustment_time`.  (Non-numeric or
unknown fields are stored verbatim by the source and are outside this
model.) -/
def manualAdjust (st : AdjState) (agent field : String) (value now : ℚ) :
    AdjState :=
  let old :=
    if field = "fibo_tolerance_pct" then st.cfg.tol
    else if field = "cooldown_seconds" then st.cfg.cooldown
    else if field = "position_size_pct" then st.cfg.posSize
    else 0
  let cfg' :=
    if field = "fibo_tolerance_pct" then { st.cfg with tol := value }
    else if field = "cooldown_seconds" then { st.cfg with cooldown := value }
    else if field = "position_size_pct" then { st.cfg with posSize := value }
    else st.cfg
  { st with
    cfg := cfg',
    log := logAdjustments agent st.log [⟨"", field, old, value, now⟩] }

/-! ## Live-position SL/TP rewrite (`IAdjust._recalculate_sl_tp`) -/

/-- An open position as read from `open_positions/<agent>.json`, with the
fields `_recalculate_sl_tp` consumes. -/
structure Position where
  price_open : ℚ
  ptype : String  -- "BUY" or "SELL"
  ticket : ℕ
  symbol : String
  sl : ℚ
  tp : ℚ
deriving DecidableEq

/-- An MT5 modification order emitted for one open position. -/
structure Mod where
  ticket : ℕ
  symbol : String
  new_sl : ℚ
  new_tp : ℚ
  old_sl : ℚ
  old_tp : ℚ
deriving DecidableEq

/-- SL stage of `_recalculate_sl_tp`: the recomputed SL together with the
`changed` flag.  BUY keeps the current SL unless it is unset (`≤ 0`) or the
recomputed SL does not retreat (`calc ≥ current`); SELL symmetrically. -/
def recalcSlStep (pos : Position) (newSl : Option ℚ) : ℚ × Bool :=
  match newSl with
  | none => (pos.sl, false)
  | some s =>
    if pos.ptype = "BUY" then
      let calcSl := pyRound (pos.price_open * (1 - s/100)) 2
      if pos.sl ≤ 0 ∨ pos.sl ≤ calcSl then (calcSl, true) else (pos.sl, false)
    else if pos.ptype = "SELL" then
      let calcSl := pyRound (pos.price_open * (1 + s/100)) 2
      if pos.sl ≤ 0 ∨ calcSl ≤ pos.sl then (calcSl, true) else (pos.sl, false)
    else (pos.sl, false)

/-- TP stage of `_recalculate_sl_tp`: the TP is always rewritten from the
new percentage (no monotonicity condition), and sets `changed`. -/
def recalcTpStep (pos : Position) (newTp : Option ℚ) (changed : Bool) :
    ℚ × Bool :=
  match newTp with
  | none => (pos.tp, changed)
  | some t =>
    if pos.ptype = "BUY" then (pyRound (pos.price_open * (1 + t/100)) 2, true)
    else if pos.ptype = "SELL" then (pyRound (pos.price_open * (1 - t/100)) 2, true)
    else (pos.tp, changed)

/-- `IAdjust._recalculate_sl_tp`: recompute SL/TP for one open position
from the new percentages; `none` for an invalid position or when nothing
changed. -/
def recalculate_sl_tp (pos : Position) (newTp newSl : Option ℚ) :
    Option Mod :=
  if pos.price_open = 0 ∨ pos.ticket = 0 ∨ pos.ptype = "" then none
  else
    let fs := recalcSlStep pos newSl
    let ft := recalcTpStep pos newTp fs.2
    if ft.2 then
      some { ticket := pos.ticket, symbol := pos.symbol, new_sl := fs.1,
             new_tp := ft.1, old_sl := pos.sl, old_tp := pos.tp }
    else none

/-! ## Position manager (`TradingLoop._manage_single_position`) -/

/-- The tpsl configuration as assembled by `TradingLoop._get_tpsl_config`. -/
structure TpslCfg where
  tp_pct : ℚ
  sl_pct : ℚ
  trailing_start_pct : ℚ
  trailing_distance_pct : ℚ
  trailing_enabled : Bool
  break_even_pct : ℚ
  break_even_enabled : Bool
deriving DecidableEq

/-- A broker position snapshot with the fields
`_manage_single_position` consumes. -/
structure MPos where
  ticket : ℕ
  ptype : String
  price_open : ℚ
  price_current : ℚ
  sl : ℚ
  symbol : String
deriving DecidableEq

/-- Rule chain of `_manage_single_position` once direction and gain are
known: trailing stop first, else break-even, else winner-never-loser; each
rule issues its candidate SL only when it beats the current SL (strictly
greater for BUY; strictly less, or current unset, for SELL). -/
def manageBody (isBuy : Bool) (o c sl gain : ℚ) (tpsl : TpslCfg)
    (wnl : Bool) : Option ℚ :=
  if tpsl.trailing_enabled ∧ tpsl.trailing_start_pct ≤ gain then
    let d := o * (tpsl.trailing_distance_pct / 100)
    if isBuy then
      if sl < c - d then some (c - d) else none
    else
      if c + d < sl ∨ sl = 0 then some (c + d) else none
  else if tpsl.break_even_enabled ∧ tpsl.break_even_pct ≤ gain then
    let buf := o * (2/10000)
    if isBuy then
      if sl < o + buf then some (o + buf) else none
    else
      if o - buf < sl ∨ sl = 0 then some (o - buf) else none
  else if wnl ∧ 5/100 ≤ gain then
    let buf := o * (2/10000)
    if isBuy then
      if sl < o + buf then some (o + buf) else none
    else
      if o - buf < sl ∨ sl = 0 then some (o - buf) else none
  else none

/-- `TradingLoop._manage_single_position`, reduced to its decision: the SL
value passed to `modify_trade_sl_tp`, or `none` when no write is issued. -/
def manage_single_position (pos : MPos) (tpsl : TpslCfg) (wnl : Bool) :
    Option ℚ :=
  if pos.price_open = 0 ∨ pos.price_current = 0 then none
  else if pos.ptype = "BUY" then
    manageBody true pos.price_open pos.price_current pos.sl
      ((pos.price_current - pos.price_open) / pos.price_open * 100) tpsl wnl
  else if pos.ptype = "SELL" then
    manageBody false pos.price_open pos.price_current pos.sl
      ((pos.price_open - pos.price_current) / pos.price_open * 100) tpsl wnl
  else none

/-! ## Trade-volume snapping (`TradingLoop._execute_trade`) -/

/-- The volume computation of `_execute_trade`: when symbol info is
available and `volume_step > 0`, the raw configured size is snapped down to
the step (`int(raw/step)*step`, rounded to 8 decimals) and clamped below to
`volume_min`; otherwise the raw size is used.  `vmax` is the symbol's
`volume_max`, which the source never consults. -/
def execute_volume (raw : ℚ) (hasInfo : Bool) (step vmin vmax : ℚ) : ℚ :=
  if hasInfo ∧ 0 < step then max vmin (pyRound (truncQ (raw / step) * step) 8)
  else raw

/-! ## Closed-trade sync (`actions/sync/sync_closed.py`) -/

/-- An MT5 deal as returned by `history_deals_get(position=ticket)`.
`dtype` is the deal type (0 = BUY); `entry` is the entry semantics
(0 = IN, 1 = OUT). -/
structure Deal where
  ticket : ℕ
  order : ℕ
  position_id : ℕ
  symbol : String
  dtype : ℕ
  volume : ℚ
  price : ℚ
  profit : ℚ
  swap : ℚ
  commission : ℚ
  time : ℤ
  magic : ℕ
  comment : String
  entry : ℕ
deriving DecidableEq

/-- A record of `closed_trades/<agent>.json` as `sync_closed_trades`
writes it.  (`type` in the JSON is `rtype` here.) -/
structure ClosedTrade where
  ticket : ℕ
  order : ℕ
  position_id : ℕ
  symbol : String
  rtype : String
  volume : ℚ
  price : ℚ
  profit : ℚ
  swap : ℚ
  commission : ℚ
  time : ℤ
  magic : ℕ
  comment : String
  entry : ℕ
  agent_id : String
  synced_at : ℚ
  open_price : Option ℚ
  open_time : Option ℤ
deriving DecidableEq

/-- The closing deal the sync loop retains: the loop overwrites
`closing_deal` on every deal with `entry == 1`, so it keeps the last one. -/
def closingDeal (deals : List Deal) : Option Deal :=
  (deals.filter (fun d => d.entry == 1)).getLast?

/-- The opening deal, analogously the last deal with `entry == 0`. -/
def openingDeal (deals : List Deal) : Option Deal :=
  (deals.filter (fun d => d.entry == 0)).getLast?

/-- The `trade_record` dict built for a closed ticket. -/
def mkClosedTrade (cd : Deal) (od : Option Deal) (agent : String)
    (now : ℚ) : ClosedTrade :=
  { ticket := cd.ticket, order := cd.order, position_id := cd.position_id,
    symbol := cd.symbol, rtype := if cd.dtype = 0 then "BUY" else "SELL",
    volume := cd.volume, price := cd.price, profit := cd.profit,
    swap := cd.swap, commission := cd.commission, time := cd.time,
    magic := cd.magic, comment := cd.comment, entry := cd.entry,
    agent_id := agent, synced_at := now,
    open_price := od.map (fun d => d.price),
    open_time := od.map (fun d => d.time) }

/-- The per-ticket loop of `sync_closed_trades`: `acc` mirrors
`existing_trades`, `keys` mirrors `existing_tickets` (initialised with the
position ids of the loaded records, grown with the processed ticket id on
every append). -/
def syncLoop (agent : String) (now : ℚ) (deals : ℕ → List Deal) :
    List ClosedTrade → List ℕ → List ℕ → List ClosedTrade
  | acc, _keys, [] => acc
  | acc, keys, t :: ts =>
    if t ∈ keys then syncLoop agent now deals acc keys ts
    else if (deals t).isEmpty then syncLoop agent now deals acc keys ts
    else
      match closingDeal (deals t) with
      | none => syncLoop agent now deals acc keys ts
      | some cd =>
        syncLoop agent now deals
          (acc ++ [mkClosedTrade cd (openingDeal (deals t)) agent now])
          (keys ++ [t]) ts

/-- Stable insertion for the descending-by-`time` sort: a record goes
before the first strictly older record, after records with equal time —
the order Python's stable `sort(key=time, reverse=True)` produces. -/
def insertByTime (r : ClosedTrade) : List ClosedTrade → List ClosedTrade
  | [] => [r]
  | y :: ys => if y.time ≤ r.time then r :: y :: ys else y :: insertByTime r ys

/-- Stable sort by close time, newest first. -/
def sortByTimeDesc : List ClosedTrade → List ClosedTrade
  | [] => []
  | r :: rs => insertByTime r (sortByTimeDesc rs)

/-- `sync_closed_trades`: with no session ticket the file is returned
untouched (early return before the sort); otherwise the per-ticket loop
runs and the result is sorted by close time descending and saved. -/
def sync_closed_trades (agent : String) (now : ℚ) (deals : ℕ → List Deal)
    (trades : List ClosedTrade) (tickets : List ℕ) : List ClosedTrade :=
  if tickets.isEmpty then trades
  else sortByTimeDesc
    (syncLoop agent now deals trades (trades.map (fun r => r.position_id)) tickets)

/-! ## Statistics (`actions/stats/calculate.py`) -/

/-- The numeric fields of the stats record `calculate_stats` writes
(`agent_id` and `updated_at` are the agent name and a wall-clock stamp). -/
structure Stats where
  total_trades : ℕ
  wins : ℕ
  losses : ℕ
  breakeven : ℕ
  winrate : ℚ
  total_profit : ℚ
  avg_win : ℚ
  avg_loss : ℚ
  risk_reward : ℚ
deriving DecidableEq

/-- The keys of the stats dict, in the order `calculate_stats` builds it. -/
def statsKeys : List String :=
  ["agent_id", "total_trades", "wins", "losses", "breakeven", "winrate",
   "total_profit", "avg_win", "avg_loss", "risk_reward", "updated_at"]

/-- `calculate_stats`, as a pure function of the closed-trade list. -/
def calculate_stats (trades : List ClosedTrade) : Stats :=
  let total := trades.length
  let winning := (trades.filter (fun t => decide (0 < t.profit))).map
    (fun t => t.profit)
  let losing := (trades.filter (fun t => decide (t.profit < 0))).map
    (fun t => t.profit)
  let wins := winning.length
  let losses := losing.length
  let totalProfit := (trades.map (fun t => t.profit)).sum
  let winrate : ℚ := if 0 < total then (wins : ℚ) / (total : ℚ) * 100 else 0
  let avgWin : ℚ := if winning.isEmpty then 0 else winning.sum / (wins : ℚ)
  let avgLoss : ℚ := if losing.isEmpty then 0 else losing.sum / (losses : ℚ)
  let rr : ℚ := if avgLoss ≠ 0 then |avgWin / avgLoss| else 0
  { total_trades := total, wins := wins, losses := losses,
    breakeven := total - wins - losses,
    winrate := pyRound winrate 2, total_profit := pyRound totalProfit 2,
    avg_win := pyRound avgWin 2, avg_loss := pyRound avgLoss 2,
    risk_reward := pyRound rr 2 }

/-! ## Agent gate (`BaseAgent.can_trade`) -/

/-- `BaseAgent.can_trade`: enabled, below `max_positions`, and the cooldown
elapsed — where an unset `last_trade_time` (as after process start) short-
circuits the cooldown check to true. -/
def can_trade (enabled : Bool) (maxPos curPos : ℕ) (lastTrade : Option ℚ)
    (now cooldown : ℚ) : Bool :=
  if !enabled then false
  else if maxPos ≤ curPos then false
  else
    match lastTrade with
    | none => true
    | some t => decide (cooldown ≤ now - t)

/-- A concrete broker history: ticket 42 carries one opening (`entry=0`)
and one closing (`entry=1`) deal, both with `position_id = 42`; every
other position id has no deals. -/
def sampleDeals : ℕ → List Deal := fun t =>
  if t = 42 then
    [⟨90, 90, 42, "BTCUSD", 0, 1/100, 100, 0, 0, 0, 1000, 0, "G13_fibo1", 0⟩,
     ⟨91, 91, 42, "BTCUSD", 1, 1/100, 1004/10, 20, 0, 0, 1100, 0, "G13_fibo1", 1⟩]
  else []

/-- Worst-case distance between a value and its `roundParam` image: one
half of the last kept decimal place, or 1 for the truncated parameter. -/
def paramSlack (p : Param) : ℚ :=
  if paramDigits p = 0 then 1 else 1 / (2 * 10 ^ paramDigits p)

/-- Both tpsl percentages inside their `PARAM_MAP` bounds
(`tp_pct ∈ [0.1, 1]`, `sl_pct ∈ [0.2, 1]`). -/
def tpslInBounds (t : Tpsl) : Prop :=
  1/10 ≤ t.tp ∧ t.tp ≤ 1 ∧ 1/5 ≤ t.sl ∧ t.sl ≤ 1

instance (t : Tpsl) : Decidable (tpslInBounds t) := by
  unfold tpslInBounds; infer_instance

/-! ## Helper lemmas on the rounding primitives -/

theorem floor_le_roundHalfEven (q : ℚ) : ⌊q⌋ ≤ roundHalfEven q := by
  unfold roundHalfEven
  split_ifs <;> omega

theorem le_roundHalfEven (q : ℚ) (L : ℤ) (h : (L : ℚ) ≤ q) :
    L ≤ roundHalfEven q :=
  le_trans (Int.le_floor.mpr h) (floor_le_roundHalfEven q)

theorem roundHalfEven_le (q : ℚ) (H : ℤ) (h : q ≤ (H : ℚ)) :
    roundHalfEven q ≤ H := by
  have hfl : ⌊q⌋ ≤ H := by
    have h0 : ⌊q⌋ ≤ ⌊(H : ℚ)⌋ := Int.floor_le_floor h
    simpa using h0
  unfold roundHalfEven
  split_ifs with h1 h2 h3
  · exact hfl
  · have hq : (⌊q⌋ : ℚ) + 1/2 < q := by linarith
    have hlt : ((⌊q⌋ : ℤ) : ℚ) < (H : ℚ) := by linarith
    have : ⌊q⌋ < H := by exact_mod_cast hlt
    omega
  · exact hfl
  · have hq : (⌊q⌋ : ℚ) + 1/2 ≤ q := by linarith
    have hlt : ((⌊q⌋ : ℤ) : ℚ) < (H : ℚ) := by linarith
    have : ⌊q⌋ < H := by exact_mod_cast hlt
    omega

theorem abs_roundHalfEven_sub (q : ℚ) : |(roundHalfEven q : ℚ) - q| ≤ 1/2 := by
  have h0 := Int.floor_le q
  have h1 := Int.lt_floor_add_one q
  unfold roundHalfEven
  split_ifs with hA hB hC <;> rw [abs_le] <;> constructor <;> push_cast <;> linarith

theorem abs_pyRound_sub (q : ℚ) (n : ℕ) :
    |pyRound q n - q| ≤ 1 / (2 * 10 ^ n) := by
  have h10 : (0 : ℚ) < 10 ^ n := by positivity
  have h := abs_roundHalfEven_sub (q * 10 ^ n)
  have he : pyRound q n - q =
      ((roundHalfEven (q * 10 ^ n) : ℚ) - q * 10 ^ n) / 10 ^ n := by
    field_simp [pyRound]
    ring
  rw [he, abs_div, abs_of_pos h10]
  have h2 := (div_le_div_right h10).mpr h
  calc |(roundHalfEven (q * 10 ^ n) : ℚ) - q * 10 ^ n| / 10 ^ n
      ≤ (1/2) / 10 ^ n := h2
    _ = 1 / (2 * 10 ^ n) := by ring

theorem pyRound_bounds (n : ℕ) (L H : ℤ) (q : ℚ)
    (hL : (L : ℚ) / 10 ^ n ≤ q) (hH : q ≤ (H : ℚ) / 10 ^ n) :
    (L : ℚ) / 10 ^ n ≤ pyRound q n ∧ pyRound q n ≤ (H : ℚ) / 10 ^ n := by
  have h10 : (0 : ℚ) < 10 ^ n := by positivity
  have hL' : (L : ℚ) ≤ q * 10 ^ n := by
    rw [div_le_iff h10] at hL; exact hL
  have hH' : q * 10 ^ n ≤ (H : ℚ) := by
    rw [le_div_iff h10] at hH; exact hH
  constructor
  · unfold pyRound
    apply (div_le_div_right h10).mpr
    exact_mod_cast le_roundHalfEven _ _ hL'
  · unfold pyRound
    apply (div_le_div_right h10).mpr
    exact_mod_cast roundHalfEven_le _ _ hH'

theorem abs_truncQ_sub (q : ℚ) : |truncQ q - q| ≤ 1 := by
  unfold truncQ
  split_ifs with h
  · have h0 := Int.floor_le q
    have h1 := Int.lt_floor_add_one q
    rw [abs_le]; constructor <;> linarith
  · have h0 := Int.le_ceil q
    have h1 := Int.ceil_lt_add_one q
    rw [abs_le]; constructor <;> linarith

theorem clampQ_mem (lo hi v : ℚ) (h : lo ≤ hi) :
    lo ≤ clampQ lo hi v ∧ clampQ lo hi v ≤ hi := by
  refine ⟨le_max_left _ _, ?_⟩
  exact max_le h (min_le_left _ _)

theorem abs_clampQ_sub (lo hi x v : ℚ) (hlo : lo ≤ x) (hhi : x ≤ hi) :
    |clampQ lo hi v - x| ≤ |v - x| := by
  have h1 : v - x ≤ |v - x| := le_abs_self _
  have h2 : -(|v - x|) ≤ v - x := neg_abs_le _
  have h3 : (0 : ℚ) ≤ |v - x| := abs_nonneg _
  rw [abs_le]
  constructor
  · have hm : x - |v - x| ≤ min hi v := le_min (by linarith) (by linarith)
    have : x - |v - x| ≤ clampQ lo hi v :=
      le_trans hm (le_max_right _ _)
    linarith
  · have hm : min hi v ≤ x + |v - x| :=
      le_trans (min_le_right _ _) (by linarith)
    have : clampQ lo hi v ≤ x + |v - x| := max_le (by linarith) hm
    linarith

/-! ## Helper lemmas on the per-parameter guards -/

theorem paramMin_le_paramMax (p : Param) : paramMin p ≤ paramMax p := by
  cases p <;> norm_num [paramMin, paramMax]

theorem paramSlack_pos (p : Param) : 0 < paramSlack p := by
  cases p <;> norm_num [paramSlack, paramDigits]

theorem roundParam_mem (p : Param) (v : ℚ)
    (h1 : paramMin p ≤ v) (h2 : v ≤ paramMax p) :
    paramMin p ≤ roundParam p v ∧ roundParam p v ≤ paramMax p := by
  cases p
  case tol =>
    simp only [roundParam, paramDigits, paramMin, paramMax] at h1 h2 ⊢
    norm_num
    have h := pyRound_bounds 2 50 500 v (by push_cast; norm_num; linarith)
      (by push_cast; norm_num; linarith)
    constructor
    · have := h.1; push_cast at this; norm_num at this; linarith
    · have := h.2; push_cast at this; norm_num at this; linarith
  case cooldown =>
    simp only [roundParam, paramDigits, paramMin, paramMax] at h1 h2 ⊢
    norm_num
    have hv : (0 : ℚ) ≤ v := by linarith
    rw [truncQ, if_pos hv]
    constructor
    · have : (60 : ℤ) ≤ ⌊v⌋ := Int.le_floor.mpr (by exact_mod_cast h1)
      exact_mod_cast this
    · have := Int.floor_le v
      linarith
  case posSize =>
    simp only [roundParam, paramDigits, paramMin, paramMax] at h1 h2 ⊢
    norm_num
    have h := pyRound_bounds 4 50 500 v (by push_cast; norm_num; linarith)
      (by push_cast; norm_num; linarith)
    constructor
    · have := h.1; push_cast at this; norm_num at this; linarith
    · have := h.2; push_cast at this; norm_num at this; linarith
  case tp =>
    simp only [roundParam, paramDigits, paramMin, paramMax] at h1 h2 ⊢
    norm_num
    have h := pyRound_bounds 3 100 1000 v (by push_cast; norm_num; linarith)
      (by push_cast; norm_num; linarith)
    constructor
    · have := h.1; push_cast at this; norm_num at this; linarith
    · have := h.2; push_cast at this; norm_num at this; linarith
  case sl =>
    simp only [roundParam, paramDigits, paramMin, paramMax] at h1 h2 ⊢
    norm_num
    have h := pyRound_bounds 3 200 1000 v (by push_cast; norm_num; linarith)
      (by push_cast; norm_num; linarith)
    constructor
    · have := h.1; push_cast at this; norm_num at this; linarith
    · have := h.2; push_cast at this; norm_num at this; linarith

theorem clampRound_mem (p : Param) (v : ℚ) :
    paramMin p ≤ clampRound p v ∧ clampRound p v ≤ paramMax p := by
  have h := clampQ_mem (paramMin p) (paramMax p) v (paramMin_le_paramMax p)
  exact roundParam_mem p _ h.1 h.2

theorem amplitudeGuard_mem (p : Param) (current c : ℚ)
    (hc : paramMin p ≤ c ∧ c ≤ paramMax p) :
    paramMin p ≤ amplitudeGuard p current c ∧
    amplitudeGuard p current c ≤ paramMax p := by
  unfold amplitudeGuard clampParam
  split_ifs with h h2
  · exact clampQ_mem _ _ _ (paramMin_le_paramMax p)
  · exact clampQ_mem _ _ _ (paramMin_le_paramMax p)
  · exact hc

theorem processParam_mem (agent : String) (log : List Entry)
    (now current : ℚ) (p : Param) (v : ℚ) (c : ℚ)
    (h : processParam agent log now current p v = some c) :
    paramMin p ≤ c ∧ c ≤ paramMax p := by
  simp only [processParam] at h
  split_ifs at h
  all_goals
    first
      | exact Option.noConfusion h
      | (rw [← Option.some_inj.mp h]
         exact amplitudeGuard_mem p current _ (clampRound_mem p v))

theorem roundParam_err (p : Param) (v : ℚ) :
    |roundParam p v - v| ≤ paramSlack p := by
  unfold roundParam paramSlack
  split_ifs with h
  · exact abs_truncQ_sub v
  · exact abs_pyRound_sub v _

theorem pyRound3_tp_mem (w : ℚ) (h1 : 1/10 ≤ w) (h2 : w ≤ 1) :
    1/10 ≤ pyRound w 3 ∧ pyRound w 3 ≤ 1 := by
  have h := pyRound_bounds 3 100 1000 w (by push_cast; norm_num; linarith)
    (by push_cast; norm_num; linarith)
  constructor
  · have := h.1; push_cast at this; norm_num at this; linarith
  · have := h.2; push_cast at this; norm_num at this; linarith

theorem pyRound3_sl_mem (w : ℚ) (h1 : 1/5 ≤ w) (h2 : w ≤ 1) :
    1/5 ≤ pyRound w 3 ∧ pyRound w 3 ≤ 1 := by
  have h := pyRound_bounds 3 200 1000 w (by push_cast; norm_num; linarith)
    (by push_cast; norm_num; linarith)
  constructor
  · have := h.1; push_cast at this; norm_num at this; linarith
  · have := h.2; push_cast at this; norm_num at this; linarith

theorem applyChanges_tpsl_bounds (agent : String) (log : List Entry)
    (now : ℚ) :
    ∀ (l : List (Param × ℚ)) (cfg : Config), tpslInBounds cfg.tpsl →
      tpslInBounds (applyChanges agent log now cfg l).1.tpsl := by
  intro l
  induction l with
  | nil => intro cfg h; simpa [applyChanges] using h
  | cons pv rest ih =>
    intro cfg h
    obtain ⟨p, v⟩ := pv
    simp only [applyChanges]
    cases hp : processParam agent log now (getParam cfg p) p v with
    | none => exact ih cfg h
    | some c =>
      dsimp only
      apply ih
      have hc := processParam_mem _ _ _ _ _ _ _ hp
      rcases h with ⟨ha, hb, hc2, hd⟩
      cases p
      case tol => exact ⟨ha, hb, hc2, hd⟩
      case cooldown => exact ⟨ha, hb, hc2, hd⟩
      case posSize => exact ⟨ha, hb, hc2, hd⟩
      case tp =>
        simp only [paramMin, paramMax] at hc
        exact ⟨hc.1, hc.2, hc2, hd⟩
      case sl =>
        simp only [paramMin, paramMax] at hc
        exact ⟨ha, hb, hc.1, hc.2⟩

theorem applySuggestion_tpsl_bounds (cfg : Config) (now : ℚ)
    (s : Suggestion) (r : Config × Entry)
    (h : applySuggestion cfg now s = some r) (hb : tpslInBounds cfg.tpsl) :
    tpslInBounds r.1.tpsl := by
  rcases hb with ⟨ha, hb2, hc, hd⟩
  cases s
  case unknown => exact Option.noConfusion h
  case reduceTolerance =>
    simp only [applySuggestion] at h
    split_ifs at h
    all_goals
      first
        | exact Option.noConfusion h
        | (rw [← Option.some_inj.mp h]; exact ⟨ha, hb2, hc, hd⟩)
  case increaseTolerance =>
    simp only [applySuggestion] at h
    split_ifs at h
    all_goals
      first
        | exact Option.noConfusion h
        | (rw [← Option.some_inj.mp h]; exact ⟨ha, hb2, hc, hd⟩)
  case increaseCooldown =>
    simp only [applySuggestion] at h
    split_ifs at h
    all_goals
      first
        | exact Option.noConfusion h
        | (rw [← Option.some_inj.mp h]; exact ⟨ha, hb2, hc, hd⟩)
  case reduceCooldown =>
    simp only [applySuggestion] at h
    split_ifs at h
    all_goals
      first
        | exact Option.noConfusion h
        | (rw [← Option.some_inj.mp h]; exact ⟨ha, hb2, hc, hd⟩)
  case increaseRisk =>
    simp only [applySuggestion] at h
    split_ifs at h
    all_goals
      first
        | exact Option.noConfusion h
        | (rw [← Option.some_inj.mp h]; exact ⟨ha, hb2, hc, hd⟩)
  case adjustTpsl =>
    simp only [applySuggestion] at h
    have hw := pyRound3_tp_mem (min 1 (cfg.tpsl.tp + 1/20))
      (le_min (by norm_num) (by linarith)) (min_le_left _ _)
    split_ifs at h
    all_goals
      first
        | exact Option.noConfusion h
        | (rw [← Option.some_inj.mp h]; exact ⟨hw.1, hw.2, hc, hd⟩)
  case riskManagement =>
    simp only [applySuggestion] at h
    have hw := pyRound3_sl_mem (max (1/5) (cfg.tpsl.sl - 1/20))
      (le_max_left _ _) (max_le (by norm_num) (by linarith))
    split_ifs at h
    all_goals
      first
        | exact Option.noConfusion h
        | (rw [← Option.some_inj.mp h]; exact ⟨ha, hb2, hw.1, hw.2⟩)

theorem autoAdjustLoop_tpsl_bounds (now : ℚ) :
    ∀ (l : List Suggestion) (cfg : Config), tpslInBounds cfg.tpsl →
      tpslInBounds (autoAdjustLoop now cfg l).1.tpsl := by
  intro l
  induction l with
  | nil => intro cfg h; simpa [autoAdjustLoop] using h
  | cons s rest ih =>
    intro cfg h
    simp only [autoAdjustLoop]
    cases hs : applySuggestion cfg now s with
    | none => exact ih cfg h
    | some r =>
      dsimp only
      exact ih r.1 (applySuggestion_tpsl_bounds cfg now s r hs h)

/-! ## Helper lemmas on the closed-trade sync -/

theorem closingDeal_mem (ds : List Deal) (cd : Deal)
    (h : closingDeal ds = some cd) : cd ∈ ds := by
  unfold closingDeal at h
  have h1 : cd ∈ (ds.filter (fun d => d.entry == 1)).getLast? :=
    Option.mem_def.mpr h
  obtain ⟨hne, heq⟩ := List.mem_getLast?_eq_getLast h1
  have h2 := List.getLast_mem hne
  rw [← heq] at h2
  exact List.mem_of_mem_filter h2

theorem mem_syncLoop (agent : String) (now : ℚ) (deals : ℕ → List Deal) :
    ∀ (ts : List ℕ) (acc : List ClosedTrade) (keys : List ℕ)
      (x : ClosedTrade), x ∈ acc → x ∈ syncLoop agent now deals acc keys ts := by
  intro ts
  induction ts with
  | nil => intro acc keys x hx; simpa [syncLoop] using hx
  | cons t ts ih =>
    intro acc keys x hx
    simp only [syncLoop]
    split_ifs with h1 h2
    · exact ih acc keys x hx
    · exact ih acc keys x hx
    · cases hcd : closingDeal (deals t) with
      | none => exact ih acc keys x hx
      | some cd => exact ih _ _ x (List.mem_append_left _ hx)

theorem syncLoop_complete (agent : String) (now : ℚ) (deals : ℕ → List Deal)
    (hD : ∀ t d, d ∈ deals t → d.position_id = t) :
    ∀ (ts : List ℕ) (acc : List ClosedTrade) (keys : List ℕ),
      (∀ k ∈ keys, k ∈ acc.map (fun r => r.position_id)) →
      ∀ t ∈ ts,
        t ∈ (syncLoop agent now deals acc keys ts).map (fun r => r.position_id) ∨
        closingDeal (deals t) = none := by
  intro ts
  induction ts with
  | nil => intro acc keys _ t ht; exact absurd ht (List.not_mem_nil t)
  | cons t0 ts ih =>
    intro acc keys hkeys t ht
    simp only [syncLoop]
    split_ifs with h1 h2
    · rcases List.mem_cons.mp ht with rfl | htl
      · left
        obtain ⟨r, hr, hpr⟩ := List.mem_map.mp (hkeys t h1)
        exact List.mem_map.mpr ⟨r, mem_syncLoop agent now deals ts acc keys r hr, hpr⟩
      · exact ih acc keys hkeys t htl
    · rcases List.mem_cons.mp ht with rfl | htl
      · right
        have : deals t = [] := List.isEmpty_iff.mp h2
        simp [closingDeal, this]
      · exact ih acc keys hkeys t htl
    · cases hcd : closingDeal (deals t0) with
      | none =>
        rcases List.mem_cons.mp ht with rfl | htl
        · right; exact hcd
        · exact ih acc keys hkeys t htl
      | some cd =>
        have hpid : cd.position_id = t0 := hD t0 cd (closingDeal_mem _ _ hcd)
        have hkeys' : ∀ k ∈ keys ++ [t0],
            k ∈ (acc ++ [mkClosedTrade cd (openingDeal (deals t0)) agent now]).map
              (fun r => r.position_id) := by
          intro k hk
          rcases List.mem_append.mp hk with hk1 | hk2
          · rw [List.map_append]
            exact List.mem_append_left _ (hkeys k hk1)
          · have hk3 : k = t0 := by simpa using hk2
            rw [List.map_append]
            apply List.mem_append_right
            simp [mkClosedTrade, hk3, hpid]
        rcases List.mem_cons.mp ht with rfl | htl
        · left
          have hmem : mkClosedTrade cd (openingDeal (deals t)) agent now ∈
              syncLoop agent now deals
                (acc ++ [mkClosedTrade cd (openingDeal (deals t)) agent now])
                (keys ++ [t]) ts :=
            mem_syncLoop agent now deals ts _ _ _
              (List.mem_append_right _ (List.mem_singleton.mpr rfl))
          exact List.mem_map.mpr ⟨_, hmem, by simp [mkClosedTrade, hpid]⟩
        · exact ih _ _ hkeys' t htl

theorem syncLoop_noop (agent : String) (now : ℚ) (deals : ℕ → List Deal) :
    ∀ (ts : List ℕ) (acc : List ClosedTrade) (keys : List ℕ),
      (∀ t ∈ ts, t ∈ keys ∨ closingDeal (deals t) = none) →
      syncLoop agent now deals acc keys ts = acc := by
  intro ts
  induction ts with
  | nil => intro acc keys _; rfl
  | cons t0 ts ih =>
    intro acc keys hts
    have htail : ∀ t ∈ ts, t ∈ keys ∨ closingDeal (deals t) = none :=
      fun t ht => hts t (List.mem_cons_of_mem t0 ht)
    simp only [syncLoop]
    split_ifs with h1 h2
    · exact ih acc keys htail
    · exact ih acc keys htail
    · have hc : closingDeal (deals t0) = none := by
        rcases hts t0 (List.mem_cons_self t0 ts) with h | h
        · exact absurd h h1
        · exact h
      rw [hc]
      exact ih acc keys htail

theorem syncLoop_nodup (agent : String) (now : ℚ) (deals : ℕ → List Deal)
    (hD : ∀ t d, d ∈ deals t → d.position_id = t) :
    ∀ (ts : List ℕ) (acc : List ClosedTrade) (keys : List ℕ),
      (acc.map (fun r => r.position_id)).Nodup →
      (∀ r ∈ acc, r.position_id ∈ keys) →
      ((syncLoop agent now deals acc keys ts).map (fun r => r.position_id)).Nodup := by
  intro ts
  induction ts with
  | nil => intro acc keys hnd _; simpa [syncLoop] using hnd
  | cons t0 ts ih =>
    intro acc keys hnd hks
    simp only [syncLoop]
    split_ifs with h1 h2
    · exact ih acc keys hnd hks
    · exact ih acc keys hnd hks
    · cases hcd : closingDeal (deals t0) with
      | none => exact ih acc keys hnd hks
      | some cd =>
        have hpid : cd.position_id = t0 := hD t0 cd (closingDeal_mem _ _ hcd)
        apply ih
        · rw [List.map_append]
          refine List.nodup_append.mpr ⟨hnd, List.nodup_singleton _, ?_⟩
          intro a ha hb
          have ha2 : a = t0 := by
            simpa [mkClosedTrade, hpid] using hb
          obtain ⟨r, hr, hpr⟩ := List.mem_map.mp ha
          exact h1 (ha2 ▸ hpr ▸ hks r hr)
        · intro r hr
          rcases List.mem_append.mp hr with hr1 | hr2
          · exact List.mem_append_left _ (hks r hr1)
          · apply List.mem_append_right
            have : r = mkClosedTrade cd (openingDeal (deals t0)) agent now := by
              simpa using hr2
            simp [this, mkClosedTrade, hpid]

theorem insertByTime_perm (r : ClosedTrade) (l : List ClosedTrade) :
    List.Perm (insertByTime r l) (r :: l) := by
  induction l with
  | nil => exact List.Perm.refl _
  | cons y ys ih =>
    simp only [insertByTime]
    split_ifs with h
    · exact List.Perm.refl _
    · exact (List.Perm.cons y ih).trans (List.Perm.swap r y ys)

theorem sortByTimeDesc_perm (l : List ClosedTrade) :
    List.Perm (sortByTimeDesc l) l := by
  induction l with
  | nil => exact List.Perm.refl _
  | cons r rs ih =>
    exact (insertByTime_perm r _).trans (List.Perm.cons r ih)

theorem insertByTime_pairwise (r : ClosedTrade) (l : List ClosedTrade)
    (h : l.Pairwise (fun a b => b.time ≤ a.time)) :
    (insertByTime r l).Pairwise (fun a b => b.time ≤ a.time) := by
  induction l with
  | nil => simp [insertByTime]
  | cons y ys ih =>
    rcases List.pairwise_cons.mp h with ⟨hy, hys⟩
    simp only [insertByTime]
    split_ifs with hle
    · refine List.pairwise_cons.mpr ⟨?_, h⟩
      intro z hz
      rcases List.mem_cons.mp hz with rfl | hz'
      · exact hle
      · exact le_trans (hy z hz') hle
    · refine List.pairwise_cons.mpr ⟨?_, ih hys⟩
      intro z hz
      have hz2 : z ∈ r :: ys := (insertByTime_perm r ys).mem_iff.mp hz
      rcases List.mem_cons.mp hz2 with rfl | hz'
      · exact le_of_lt (lt_of_not_ge hle)
      · exact hy z hz'

theorem sortByTimeDesc_pairwise (l : List ClosedTrade) :
    (sortByTimeDesc l).Pairwise (fun a b => b.time ≤ a.time) := by
  induction l with
  | nil => simp [sortByTimeDesc]
  | cons r rs ih => exact insertByTime_pairwise r _ ih

theorem sortByTimeDesc_eq_of_pairwise (l : List ClosedTrade)
    (h : l.Pairwise (fun a b => b.time ≤ a.time)) : sortByTimeDesc l = l := by
  induction l with
  | nil => rfl
  | cons r rs ih =>
    rcases List.pairwise_cons.mp h with ⟨hr, hrs⟩
    simp only [sortByTimeDesc]
    rw [ih hrs]
    cases rs with
    | nil => rfl
    | cons y ys =>
      have hy : y.time ≤ r.time := hr y (List.mem_cons_self y ys)
      simp [insertByTime, hy]

/-! ## Helper lemma on the stats counts -/

theorem filter_pos_neg_length_le (trades : List ClosedTrade) :
    (trades.filter (fun t => decide (0 < t.profit))).length +
      (trades.filter (fun t => decide (t.profit < 0))).length ≤
      trades.length := by
  induction trades with
  | nil => simp
  | cons t ts ih =>
    by_cases h1 : 0 < t.profit
    · have h2 : ¬ t.profit < 0 := by linarith
      simp [List.filter_cons, h1, h2]
      omega
    · by_cases h2 : t.profit < 0
      · simp [List.filter_cons, h1, h2]
        omega
      · simp [List.filter_cons, h1, h2]
        omega

theorem pyRound_zero (n : ℕ) : pyRound 0 n = 0 := by
  simp [pyRound, roundHalfEven]

/-! ## Claim theorems -/

/-- C10: when an agent's `last_trade_time` is unset (`None`, as after a
process restart or before the first trade of the process lifetime),
`can_trade` treats the cooldown as satisfied: it returns true exactly when
the agent is enabled and its open-position count is below `max_positions`,
for every value of `cooldown_seconds` and of the current time. -/
theorem c10_can_trade_unset_last_trade (enabled : Bool) (maxPos curPos : ℕ)
    (now cooldown : ℚ) :
    can_trade enabled maxPos curPos none now cooldown =
      (enabled && decide (curPos < maxPos)) := by
  unfold can_trade
  cases enabled
  · simp
  · by_cases h : maxPos ≤ curPos
    · simp [h, Nat.not_lt.mpr h]
    · simp [h, Nat.lt_of_not_le h]

/-- C2: `_manage_single_position` issues a stop-loss write only when the
candidate SL is strictly favorable — strictly above the current SL for a
BUY position; strictly below it, or the current SL is zero/unset, for a
SELL position.  A candidate that would retreat produces no write
(`manage_single_position` returns `none`). -/
theorem c2_sl_only_moves_favorably (pos : MPos) (tpsl : TpslCfg) (wnl : Bool)
    (s : ℚ) (h : manage_single_position pos tpsl wnl = some s) :
    (pos.ptype = "BUY" → pos.sl < s) ∧
    (pos.ptype = "SELL" → s < pos.sl ∨ pos.sl = 0) := by
  unfold manage_single_position at h
  by_cases h0 : pos.price_open = 0 ∨ pos.price_current = 0
  · rw [if_pos h0] at h; exact Option.noConfusion h
  · rw [if_neg h0] at h
    by_cases hb : pos.ptype = "BUY"
    · rw [if_pos hb] at h
      refine ⟨fun _ => ?_, fun hsell => absurd (hb.symm.trans hsell) (by decide)⟩
      simp only [manageBody] at h
      split_ifs at h
      all_goals
        first
          | exact Option.noConfusion h
          | (rw [← Option.some_inj.mp h]; assumption)
          | simp_all
    · rw [if_neg hb] at h
      by_cases hs : pos.ptype = "SELL"
      · rw [if_pos hs] at h
        refine ⟨fun hbuy => absurd (hs.symm.trans hbuy) (by decide), fun _ => ?_⟩
        simp only [manageBody] at h
        split_ifs at h
        all_goals
          first
            | exact Option.noConfusion h
            | (rw [← Option.some_inj.mp h]; assumption)
            | simp_all
      · rw [if_neg hs] at h; exact Option.noConfusion h

theorem c2_witness :
    (⟨7, "BUY", 100, 1003/10, 199/2, "BTCUSD"⟩ : MPos).sl < 501/5 :=
  (c2_sl_only_moves_favorably ⟨7, "BUY", 100, 1003/10, 199/2, "BTCUSD"⟩
    ⟨3/10, 1/2, 1/5, 1/10, true, 3/20, true⟩ false (501/5)
    (by with_unfolding_all decide)).1 rfl

/-- C7 (amended): the volume sent to the broker is the raw configured size
snapped down to the symbol's `volume_step` by flooring and clamped from
below to `volume_min`; it never falls below `volume_min`, and the floored
multiple never exceeds the raw size — but no clamp to `volume_max` is
performed (see the counterexample). -/
theorem c7_volume_snap_lower_clamp (raw step vmin vmax : ℚ)
    (hraw : 0 ≤ raw) (hstep : 0 < step) :
    vmin ≤ execute_volume raw true step vmin vmax ∧
      truncQ (raw / step) * step ≤ raw := by
  constructor
  · unfold execute_volume
    rw [if_pos ⟨rfl, hstep⟩]
    exact le_max_left _ _
  · have hq : 0 ≤ raw / step := div_nonneg hraw (le_of_lt hstep)
    rw [truncQ, if_pos hq]
    have h1 : (⌊raw / step⌋ : ℚ) ≤ raw / step := Int.floor_le _
    have h2 : (⌊raw / step⌋ : ℚ) * step ≤ raw / step * step :=
      mul_le_mul_of_nonneg_right h1 (le_of_lt hstep)
    rwa [div_mul_cancel₀ raw (ne_of_gt hstep)] at h2

theorem c7_witness :
    (1/100 : ℚ) ≤ execute_volume (5/100) true (2/100) (1/100) (3/100) ∧
      truncQ ((5/100 : ℚ) / (2/100)) * (2/100) ≤ 5/100 :=
  c7_volume_snap_lower_clamp (5/100) (2/100) (1/100) (3/100)
    (by norm_num) (by norm_num)

/-- C7 counterexample: with raw size 0.05, `volume_step` 0.02,
`volume_min` 0.01 and `volume_max` 0.03, `_execute_trade` computes volume
0.04, which exceeds `volume_max` — the claimed upper clamp does not
exist in the code. -/
theorem c7_counterexample :
    execute_volume (5/100) true (2/100) (1/100) (3/100) = 4/100 ∧
      ¬(execute_volume (5/100) true (2/100) (1/100) (3/100) ≤ 3/100) := by
  constructor <;> with_unfolding_all decide

/-- C8 counterexample: the stats record written by `calculate_stats` has
keys `{agent_id, total_trades, wins, losses, breakeven, winrate,
total_profit, avg_win, avg_loss, risk_reward, updated_at}`; it contains no
`profit_factor`, `best` or `worst` field, so the claimed field set is
wrong (shown together with a concrete evaluation). -/
theorem c8_counterexample :
    ¬("profit_factor" ∈ statsKeys) ∧ ¬("best" ∈ statsKeys) ∧
      ¬("worst" ∈ statsKeys) ∧
      (calculate_stats [⟨1, 1, 11, "BTCUSD", "BUY", 1/100, 100400, 20, 0, 0,
        1700000000, 0, "G13_fibo1", 1, "fibo1", 0, none, none⟩]).wins = 1 := by
  refine ⟨by decide, by decide, by decide, by with_unfolding_all decide⟩

/-- C8 (amended): the stats record is rederived purely from the
closed-trade list with `wins` the number of trades with positive profit,
`losses` the number with negative profit, `total_trades` the list length
(equal to wins + losses + breakeven), `winrate = wins/total×100`,
`total_profit` the profit sum, and `avg_win`/`avg_loss` the means over
winning resp. losing trades — each of the rational fields rounded to two
decimals as the source does; the record carries `risk_reward` and
`breakeven` instead of the claimed `profit_factor`/`best`/`worst`. -/
theorem c8_stats_derivation (trades : List ClosedTrade) :
    (calculate_stats trades).total_trades = trades.length ∧
    (calculate_stats trades).wins =
      trades.countP (fun t => decide (0 < t.profit)) ∧
    (calculate_stats trades).losses =
      trades.countP (fun t => decide (t.profit < 0)) ∧
    (calculate_stats trades).total_trades =
      (calculate_stats trades).wins + (calculate_stats trades).losses +
        (calculate_stats trades).breakeven ∧
    (calculate_stats trades).winrate =
      (if 0 < trades.length then
        pyRound ((trades.countP (fun t => decide (0 < t.profit)) : ℚ) /
          (trades.length : ℚ) * 100) 2
       else 0) ∧
    (calculate_stats trades).total_profit =
      pyRound ((trades.map (fun t => t.profit)).sum) 2 ∧
    (calculate_stats trades).avg_win =
      (if trades.countP (fun t => decide (0 < t.profit)) = 0 then 0 else
        pyRound
          (((trades.filter (fun t => decide (0 < t.profit))).map
            (fun t => t.profit)).sum /
            (trades.countP (fun t => decide (0 < t.profit)) : ℚ)) 2) ∧
    (calculate_stats trades).avg_loss =
      (if trades.countP (fun t => decide (t.profit < 0)) = 0 then 0 else
        pyRound
          (((trades.filter (fun t => decide (t.profit < 0))).map
            (fun t => t.profit)).sum /
            (trades.countP (fun t => decide (t.profit < 0)) : ℚ)) 2) := by
  have hcw : trades.countP (fun t => decide (0 < t.profit)) =
      (trades.filter (fun t => decide (0 < t.profit))).length :=
    List.countP_eq_length_filter _ _
  have hcl : trades.countP (fun t => decide (t.profit < 0)) =
      (trades.filter (fun t => decide (t.profit < 0))).length :=
    List.countP_eq_length_filter _ _
  have hle := filter_pos_neg_length_le trades
  refine ⟨rfl, ?_, ?_, ?_, ?_, rfl, ?_, ?_⟩
  · simp [calculate_stats, hcw]
  · simp [calculate_stats, hcl]
  · simp only [calculate_stats, List.length_map]
    omega
  · simp only [calculate_stats, List.length_map, hcw]
    by_cases h : 0 < trades.length
    · rw [if_pos h, if_pos h]
    · rw [if_neg h, if_neg h, pyRound_zero]
  · simp only [calculate_stats, List.length_map, hcw, List.isEmpty_iff,
      List.length_eq_zero]
    by_cases h : (trades.filter (fun t => decide (0 < t.profit))) = []
    · rw [if_pos h, if_pos (by simp [h]), pyRound_zero]
    · rw [if_neg h, if_neg (by simp [h])]
  · simp only [calculate_stats, List.length_map, hcl, List.isEmpty_iff,
      List.length_eq_zero]
    by_cases h : (trades.filter (fun t => decide (t.profit < 0))) = []
    · rw [if_pos h, if_pos (by simp [h]), pyRound_zero]
    · rw [if_neg h, if_neg (by simp [h])]

/-- C3: when the strategist rewrites live positions after a percentage
change, `_recalculate_sl_tp` applies the freshly computed SL only when it
does not retreat from the held SL (BUY: recomputed ≥ current, or current
unset `≤ 0`; SELL: recomputed ≤ current, or current unset); when it would
retreat, the existing SL is kept in the emitted modification, while the TP
is always rewritten from the new percentage. -/
theorem c3_strategist_sl_rewrite_monotone (pos : Position)
    (newTp newSl : Option ℚ) (m : Mod)
    (h : recalculate_sl_tp pos newTp newSl = some m) :
    (∀ s, newSl = some s → pos.ptype = "BUY" →
      (pos.sl ≤ 0 ∨ pos.sl ≤ pyRound (pos.price_open * (1 - s/100)) 2 →
        m.new_sl = pyRound (pos.price_open * (1 - s/100)) 2) ∧
      (0 < pos.sl ∧ pyRound (pos.price_open * (1 - s/100)) 2 < pos.sl →
        m.new_sl = pos.sl)) ∧
    (∀ s, newSl = some s → pos.ptype = "SELL" →
      (pos.sl ≤ 0 ∨ pyRound (pos.price_open * (1 + s/100)) 2 ≤ pos.sl →
        m.new_sl = pyRound (pos.price_open * (1 + s/100)) 2) ∧
      (0 < pos.sl ∧ pos.sl < pyRound (pos.price_open * (1 + s/100)) 2 →
        m.new_sl = pos.sl)) ∧
    (newSl = none → m.new_sl = pos.sl) ∧
    (∀ t, newTp = some t → pos.ptype = "BUY" →
      m.new_tp = pyRound (pos.price_open * (1 + t/100)) 2) ∧
    (∀ t, newTp = some t → pos.ptype = "SELL" →
      m.new_tp = pyRound (pos.price_open * (1 - t/100)) 2) := by
  simp only [recalculate_sl_tp] at h
  by_cases hval : pos.price_open = 0 ∨ pos.ticket = 0 ∨ pos.ptype = ""
  · rw [if_pos hval] at h; exact Option.noConfusion h
  · rw [if_neg hval] at h
    by_cases hch : (recalcTpStep pos newTp (recalcSlStep pos newSl).2).2 = true
    · rw [if_pos hch] at h
      obtain rfl := Option.some_inj.mp h
      refine ⟨?_, ?_, ?_, ?_, ?_⟩
      · intro s hs hbuy
        constructor
        · intro hcond
          simp only [recalcSlStep, hs, if_pos hbuy]
          rw [if_pos hcond]
        · intro hcond
          simp only [recalcSlStep, hs, if_pos hbuy]
          rw [if_neg (by push_neg; constructor <;> linarith [hcond.1, hcond.2])]
      · intro s hs hsell
        have hnb : ¬ pos.ptype = "BUY" := by
          rw [hsell]; decide
        constructor
        · intro hcond
          simp only [recalcSlStep, hs, if_neg hnb, if_pos hsell]
          rw [if_pos hcond]
        · intro hcond
          simp only [recalcSlStep, hs, if_neg hnb, if_pos hsell]
          rw [if_neg (by push_neg; constructor <;> linarith [hcond.1, hcond.2])]
      · intro hs
        simp only [recalcSlStep, hs]
      · intro t ht hbuy
        simp only [recalcTpStep, ht, if_pos hbuy]
      · intro t ht hsell
        have hnb : ¬ pos.ptype = "BUY" := by
          rw [hsell]; decide
        simp only [recalcTpStep, ht, if_neg hnb, if_pos hsell]
    · rw [if_neg hch] at h; exact Option.noConfusion h

theorem c3_witness :
    (⟨1, "BTCUSD", 501/5, 502/5, 501/5, 1004/10⟩ : Mod).new_sl = 501/5 :=
  ((c3_strategist_sl_rewrite_monotone
      ⟨100, "BUY", 1, "BTCUSD", 501/5, 1004/10⟩ (some (2/5)) (some (3/10))
      ⟨1, "BTCUSD", 501/5, 502/5, 501/5, 1004/10⟩
      (by with_unfolding_all decide)).1 (3/10) rfl rfl).2
    (by constructor <;> with_unfolding_all decide)

/-- C1 (amended): after any exact-value batch and after any rules-fallback
batch, `tp_pct` stays in `[0.1, 1]` and `sl_pct` in `[0.2, 1]` provided
they started there.  The ratio `sl_pct ≤ 1.5 × tp_pct` is not guaranteed
post-mutation: the ratio guard-rail checks only the requested values,
before the amplitude guard, and writes the clamped `sl_pct` back only when
`sl_pct` itself is among the requested changes (see the counterexample);
`manual_adjust` validates nothing at all. -/
theorem c1_tpsl_bounds_after_adjust (st : AdjState) (agent : String)
    (changes : List (Param × ℚ)) (suggs : List Suggestion) (now : ℚ)
    (h : tpslInBounds st.cfg.tpsl) :
    tpslInBounds (applyExactValues st agent changes now).cfg.tpsl ∧
    tpslInBounds (autoAdjust st agent suggs now).cfg.tpsl := by
  constructor
  · simp only [applyExactValues]
    split_ifs with h1 h2
    · exact h
    · exact applyChanges_tpsl_bounds agent st.log now _ st.cfg h
    · exact h
  · simp only [autoAdjust]
    split_ifs with h1 h2
    · exact h
    · exact autoAdjustLoop_tpsl_bounds now suggs st.cfg h
    · exact h

theorem c1_witness :
    tpslInBounds (applyExactValues ⟨⟨2, 180, 1/100, ⟨3/10, 1/2⟩⟩, [], none⟩
      "fibo1" [(Param.tp, 7/20)] 0).cfg.tpsl ∧
    tpslInBounds (autoAdjust ⟨⟨2, 180, 1/100, ⟨3/10, 1/2⟩⟩, [], none⟩
      "fibo1" [Suggestion.adjustTpsl] 0).cfg.tpsl :=
  c1_tpsl_bounds_after_adjust ⟨⟨2, 180, 1/100, ⟨3/10, 1/2⟩⟩, [], none⟩
    "fibo1" [(Param.tp, 7/20)] [Suggestion.adjustTpsl] 0
    (by with_unfolding_all decide)

/-- C1 counterexample: from `tp_pct = 0.4, sl_pct = 0.5` the exact-value
batch `{tp_pct: 0.2}` is applied — the ratio guard-rail computes the
clamped `sl_pct = 0.3` but discards it because `sl_pct` is not among the
requested changes — leaving `sl_pct = 0.5 > 1.5 × 0.2`: the claimed
post-mutation ratio invariant fails. -/
theorem c1_counterexample :
    (applyExactValues ⟨⟨2, 180, 1/100, ⟨2/5, 1/2⟩⟩, [], none⟩ "fibo1"
      [(Param.tp, 1/5)] 0).cfg.tpsl = ⟨1/5, 1/2⟩ ∧
    ¬((applyExactValues ⟨⟨2, 180, 1/100, ⟨2/5, 1/2⟩⟩, [], none⟩ "fibo1"
        [(Param.tp, 1/5)] 0).cfg.tpsl.sl ≤
      (3/2) * (applyExactValues ⟨⟨2, 180, 1/100, ⟨2/5, 1/2⟩⟩, [], none⟩
        "fibo1" [(Param.tp, 1/5)] 0).cfg.tpsl.tp) := by
  constructor <;> with_unfolding_all decide

/-- C6 (amended): whenever the exact-value per-field step applies a change
to a field whose current value is positive and within bounds, the applied
delta exceeds 50 % of the current value by at most the rounding slack of
the field's precision (half a unit of the last kept decimal; 1 for the
integer-truncated field) — the exact `|new − old| ≤ 50 % × old` bound of
the claim fails by that slack (see the counterexample); and the spec's
boundary case holds: a requested `tp_pct` of 0.9 against a current 0.5
(an 80 % delta) is cut to exactly the 50 % delta, 0.75, before the bounds
clamp. -/
theorem c6_amplitude_guard_bound :
    (∀ (agent : String) (log : List Entry) (now current : ℚ) (p : Param)
      (v c : ℚ), 0 < current → paramMin p ≤ current → current ≤ paramMax p →
      processParam agent log now current p v = some c →
      |c - current| ≤ current * (50/100) + paramSlack p) ∧
    processParam "fibo1" [] 0 (1/2) Param.tp (9/10) = some (3/4) := by
  constructor
  · intro agent log now current p v c hpos hlo hhi h
    simp only [processParam] at h
    split_ifs at h
    all_goals try exact Option.noConfusion h
    have hc : amplitudeGuard p current (clampRound p v) = c :=
      Option.some_inj.mp h
    rw [← hc]
    unfold amplitudeGuard
    have hslack := paramSlack_pos p
    split_ifs with hg hc1
    · have hr := roundParam_err p (current + current * (50/100))
      have hcl := abs_clampQ_sub (paramMin p) (paramMax p) current
        (roundParam p (current + current * (50/100))) hlo hhi
      have htri := abs_sub_le (roundParam p (current + current * (50/100)))
        (current + current * (50/100)) current
      have habs : |current + current * (50/100) - current| =
          current * (50/100) := by
        rw [abs_of_nonneg (by linarith)]
        ring
      unfold clampParam
      calc |clampQ (paramMin p) (paramMax p)
            (roundParam p (current + current * (50/100))) - current|
          ≤ |roundParam p (current + current * (50/100)) - current| := hcl
        _ ≤ |roundParam p (current + current * (50/100)) -
              (current + current * (50/100))| +
            |current + current * (50/100) - current| := htri
        _ ≤ paramSlack p + current * (50/100) := by rw [habs]; linarith
        _ = current * (50/100) + paramSlack p := by ring
    · have hr := roundParam_err p (current - current * (50/100))
      have hcl := abs_clampQ_sub (paramMin p) (paramMax p) current
        (roundParam p (current - current * (50/100))) hlo hhi
      have htri := abs_sub_le (roundParam p (current - current * (50/100)))
        (current - current * (50/100)) current
      have habs : |current - current * (50/100) - current| =
          current * (50/100) := by
        rw [abs_of_nonpos (by linarith)]
        ring
      unfold clampParam
      calc |clampQ (paramMin p) (paramMax p)
            (roundParam p (current - current * (50/100))) - current|
          ≤ |roundParam p (current - current * (50/100)) - current| := hcl
        _ ≤ |roundParam p (current - current * (50/100)) -
              (current - current * (50/100))| +
            |current - current * (50/100) - current| := htri
        _ ≤ paramSlack p + current * (50/100) := by rw [habs]; linarith
        _ = current * (50/100) + paramSlack p := by ring
    · have hng : ¬ current * (50/100) < |clampRound p v - current| :=
        fun hlt => hg ⟨hpos, hlt⟩
      have := not_lt.mp hng
      linarith
  · with_unfolding_all decide

theorem c6_witness :
    |(7/20 : ℚ) - 3/10| ≤ (3/10) * (50/100) + paramSlack Param.tp :=
  c6_amplitude_guard_bound.1 "fibo1" [] 0 (3/10) Param.tp (7/20) (7/20)
    (by norm_num) (by with_unfolding_all decide)
    (by with_unfolding_all decide) (by with_unfolding_all decide)

/-- C6 counterexample: with current `tp_pct = 0.333` and requested 0.9 the
amplitude guard writes `round(0.333 + 0.1665, 3) = 0.5` (the tie 0.4995
rounds up to the even last digit), so the applied delta 0.167 exceeds
50 % of the current value (0.1665): the claim's exact 50 % bound is
violated by the rounding. -/
theorem c6_counterexample :
    (applyExactValues ⟨⟨2, 180, 1/100, ⟨333/1000, 1/2⟩⟩, [], none⟩ "fibo1"
      [(Param.tp, 9/10)] 0).cfg.tpsl.tp = 1/2 ∧
    ¬(|(1/2 : ℚ) - 333/1000| ≤ (333/1000) * (50/100)) := by
  constructor
  · with_unfolding_all decide
  · norm_num [abs_of_nonneg]

/-- C4 (amended): in exact-value mode a proposed change whose direction
reverses the most recent matching `(agent, field)` log entry within 4 h —
as `_is_direction_locked` determines it over the 50 most recent entries —
is dropped: it neither touches the parameter nor contributes an
adjustment entry.  The rules fallback mode and manual adjustment perform
no direction check at all, so opposite-direction entries within 4 h do
reach the log through those paths (see the counterexample). -/
theorem c4_direction_locked_change_dropped (agent : String)
    (log : List Entry) (now : ℚ) (cfg : Config) (p : Param) (v : ℚ)
    (rest : List (Param × ℚ))
    (h : isDirectionLocked log now agent (paramName p) (getParam cfg p)
      (amplitudeGuard p (getParam cfg p) (clampRound p v)) = true) :
    applyChanges agent log now cfg ((p, v) :: rest) =
      applyChanges agent log now cfg rest := by
  have hp : processParam agent log now (getParam cfg p) p v = none := by
    simp only [processParam]
    split_ifs with h1 h2 h3
    all_goals first
      | rfl
      | exact absurd h (by assumption)
  simp only [applyChanges, hp]

theorem c4_witness :
    applyChanges "fibo1" [⟨"fibo1", "tpsl_config.tp_pct", 3/10, 2/5, 19000⟩]
      20000 ⟨2, 180, 1/100, ⟨2/5, 1/2⟩⟩ [(Param.tp, 3/10)] =
    applyChanges "fibo1" [⟨"fibo1", "tpsl_config.tp_pct", 3/10, 2/5, 19000⟩]
      20000 ⟨2, 180, 1/100, ⟨2/5, 1/2⟩⟩ [] :=
  c4_direction_locked_change_dropped "fibo1"
    [⟨"fibo1", "tpsl_config.tp_pct", 3/10, 2/5, 19000⟩] 20000
    ⟨2, 180, 1/100, ⟨2/5, 1/2⟩⟩ Param.tp (3/10) []
    (by with_unfolding_all decide)

/-- C4 counterexample: a rules-fallback `INCREASE_TOLERANCE` applied one
hour after a logged reduction of the same `(agent, field)` goes through —
`auto_adjust` never consults the direction lock — leaving two adjacent
log entries for `(fibo2, fibo_tolerance_pct)` 3600 s apart with opposite
signs of `new − old`, which the claim forbids. -/
theorem c4_counterexample :
    (autoAdjust ⟨⟨3/2, 180, 1/100, ⟨3/10, 1/2⟩⟩,
        [⟨"fibo2", "fibo_tolerance_pct", 2, 3/2, 16400⟩], none⟩
      "fibo2" [Suggestion.increaseTolerance] 20000).log =
      [⟨"fibo2", "fibo_tolerance_pct", 3/2, 2, 20000⟩,
       ⟨"fibo2", "fibo_tolerance_pct", 2, 3/2, 16400⟩] ∧
    (20000 : ℚ) - 16400 < 14400 ∧
    (0 : ℚ) < 2 - 3/2 ∧ (3/2 : ℚ) - 2 < 0 := by
  refine ⟨by with_unfolding_all rfl, by norm_num, by norm_num, by norm_num⟩

/-- C5 (amended): an auto-adjust batch (exact-value or rules mode) is
dropped in its entirety — config, log and last-adjustment time all
untouched, so nothing is applied and nothing is logged — whenever the
rate limit fails: the agent's in-memory last-adjustment timestamp is
younger than 15 minutes, or at least 4 of the agent's entries among the
50 most recent log entries lie inside the rolling hour.  The interval
condition consults only the in-memory map, so adjustments recorded solely
in the log (a manual adjustment, or a batch from a previous process run)
do not arm it (see the counterexample). -/
theorem c5_rate_limit_drops_batch (st : AdjState) (agent : String)
    (changes : List (Param × ℚ)) (suggs : List Suggestion) (now : ℚ)
    (h : (∃ t, st.lastAdj = some t ∧ now - t < 900) ∨
      4 ≤ (st.log.take 50).countP
        (fun e => e.agent == agent && decide (now - 3600 < e.ts))) :
    applyExactValues st agent changes now = st ∧
    autoAdjust st agent suggs now = st := by
  have hc : canAdjust st.lastAdj st.log agent now = false := by
    unfold canAdjust
    rcases h with ⟨t, ht, hlt⟩ | hcount
    · rw [ht]
      simp [not_le.mpr hlt]
    · cases st.lastAdj <;> simp [not_lt.mpr hcount]
  constructor
  · unfold applyExactValues
    rw [if_neg (by simp [hc])]
  · unfold autoAdjust
    rw [if_neg (by simp [hc])]

theorem c5_witness :
    applyExactValues ⟨⟨2, 180, 1/100, ⟨3/10, 1/2⟩⟩, [], some 19900⟩ "fibo1"
        [(Param.tp, 7/20)] 20000 =
      ⟨⟨2, 180, 1/100, ⟨3/10, 1/2⟩⟩, [], some 19900⟩ ∧
    autoAdjust ⟨⟨2, 180, 1/100, ⟨3/10, 1/2⟩⟩, [], some 19900⟩ "fibo1"
        [Suggestion.adjustTpsl] 20000 =
      ⟨⟨2, 180, 1/100, ⟨3/10, 1/2⟩⟩, [], some 19900⟩ :=
  c5_rate_limit_drops_batch ⟨⟨2, 180, 1/100, ⟨3/10, 1/2⟩⟩, [], some 19900⟩
    "fibo1" [(Param.tp, 7/20)] [Suggestion.adjustTpsl] 20000
    (Or.inl ⟨19900, rfl, by norm_num⟩)

/-- C5 counterexample: a manual adjustment of `fibo1` is logged 60 s
before an exact-value batch; the batch is nevertheless applied (tp_pct
written and a second entry logged), although 15 minutes have not elapsed
since that agent's last applied adjustment — the interval check reads
only the in-memory map, which manual adjustments never set. -/
theorem c5_counterexample :
    (manualAdjust ⟨⟨2, 180, 1/100, ⟨3/10, 1/2⟩⟩, [], none⟩ "fibo1"
        "fibo_tolerance_pct" (5/2) 19940).log =
      [⟨"fibo1", "fibo_tolerance_pct", 2, 5/2, 19940⟩] ∧
    (applyExactValues (manualAdjust ⟨⟨2, 180, 1/100, ⟨3/10, 1/2⟩⟩, [], none⟩
        "fibo1" "fibo_tolerance_pct" (5/2) 19940) "fibo1"
      [(Param.tp, 7/20)] 20000).cfg.tpsl.tp = 7/20 ∧
    (applyExactValues (manualAdjust ⟨⟨2, 180, 1/100, ⟨3/10, 1/2⟩⟩, [], none⟩
        "fibo1" "fibo_tolerance_pct" (5/2) 19940) "fibo1"
      [(Param.tp, 7/20)] 20000).log.length = 2 ∧
    (20000 : ℚ) - 19940 < 900 := by
  refine ⟨by with_unfolding_all rfl, by with_unfolding_all rfl,
    by with_unfolding_all rfl, by norm_num⟩

/-- C9: `sync_closed_trades` run twice with the same session tickets and
unchanged broker deal history leaves the closed-trade file identical
(same records, same stable descending-by-close-time order, nothing
appended twice), and — under the broker contract that deals queried by a
position id carry that position id — the file never holds two records
with the same `position_id`. -/
theorem c9_sync_idempotent_nodup (agent agent2 : String) (now now2 : ℚ)
    (deals : ℕ → List Deal) (trades : List ClosedTrade) (tickets : List ℕ)
    (hD : ∀ t d, d ∈ deals t → d.position_id = t)
    (hN : (trades.map (fun r => r.position_id)).Nodup) :
    sync_closed_trades agent2 now2 deals
        (sync_closed_trades agent now deals trades tickets) tickets =
      sync_closed_trades agent now deals trades tickets ∧
    ((sync_closed_trades agent now deals trades tickets).map
      (fun r => r.position_id)).Nodup := by
  by_cases hT : tickets.isEmpty
  · constructor
    · simp [sync_closed_trades, hT]
    · simpa [sync_closed_trades, hT] using hN
  · have hout : sync_closed_trades agent now deals trades tickets =
        sortByTimeDesc (syncLoop agent now deals trades
          (trades.map (fun r => r.position_id)) tickets) := by
      simp [sync_closed_trades, hT]
    constructor
    · rw [hout]
      have hnoop : syncLoop agent2 now2 deals
          (sortByTimeDesc (syncLoop agent now deals trades
            (trades.map (fun r => r.position_id)) tickets))
          ((sortByTimeDesc (syncLoop agent now deals trades
            (trades.map (fun r => r.position_id)) tickets)).map
              (fun r => r.position_id)) tickets =
          sortByTimeDesc (syncLoop agent now deals trades
            (trades.map (fun r => r.position_id)) tickets) := by
        apply syncLoop_noop
        intro t ht
        rcases syncLoop_complete agent now deals hD tickets trades _
            (fun k hk => hk) t ht with hmem | hnone
        · left
          exact ((sortByTimeDesc_perm _).map
            (fun r => r.position_id)).mem_iff.mpr hmem
        · right; exact hnone
      simp only [sync_closed_trades, hT, if_false, Bool.false_eq_true]
      rw [hnoop]
      exact sortByTimeDesc_eq_of_pairwise _ (sortByTimeDesc_pairwise _)
    · rw [hout]
      have hnodup : ((syncLoop agent now deals trades
          (trades.map (fun r => r.position_id)) tickets).map
            (fun r => r.position_id)).Nodup :=
        syncLoop_nodup agent now deals hD tickets trades _ hN
          (fun r hr => List.mem_map_of_mem _ hr)
      exact ((sortByTimeDesc_perm _).map
        (fun r => r.position_id)).nodup_iff.mpr hnodup

theorem c9_witness :
    sync_closed_trades "fibo1" 6 sampleDeals
        (sync_closed_trades "fibo1" 5 sampleDeals [] [42]) [42] =
      sync_closed_trades "fibo1" 5 sampleDeals [] [42] ∧
    ((sync_closed_trades "fibo1" 5 sampleDeals [] [42]).map
      (fun r => r.position_id)).Nodup :=
  c9_sync_idempotent_nodup "fibo1" "fibo1" 5 6 sampleDeals [] [42]
    (by
      intro t d hd
      by_cases h : t = 42
      · subst h
        simp [sampleDeals] at hd
        rcases hd with rfl | rfl <;> rfl
      · simp [sampleDeals, h] at hd)
    (by simp)

end G13
